import Mathlib

/-!
Verification of the GxPT SLOC counter (`GxPT/sloc.py`).

The program has three parts: a per-line classifier (`count_sloc_in_file`),
a directory walker (`count_sloc_in_directory`) and a table reporter
(`print_sloc_table`), plus an entry point that sorts the scan result by
count descending before rendering.

The embedding below models a text line as a `List Char` (Python iterates a
file line by line and immediately `strip`s each line, so line terminators
are irrelevant), a file as a `List (List Char)`, and a directory tree as a
rose tree whose files carry an `Option` of decoded lines (`none` models a
`UnicodeDecodeError` raised while reading under UTF-8).
-/

namespace GxPT


/-- The whitespace characters removed by Python's `str.strip()` (for the
ASCII range, which is what matters for the comment tokens). -/
def isPySpace (c : Char) : Bool :=
  c == ' ' || c == '\t' || c == '\n' || c == '\r' || c == '\x0b' || c == '\x0c'

/-- Python's `line.strip()`: drop leading and trailing whitespace. -/
def pyStrip (s : List Char) : List Char :=
  ((s.dropWhile isPySpace).reverse.dropWhile isPySpace).reverse

/-- Python's `s.startswith(pat)` on character lists. -/
def startsWithStr : List Char → List Char → Bool
  | _, [] => true
  | [], _ :: _ => false
  | c :: s, p :: ps => c == p && startsWithStr s ps

/-- Python's `pat in s` (substring test) on character lists. -/
def containsTok (pat : List Char) : List Char → Bool
  | [] => startsWithStr [] pat
  | c :: rest => startsWithStr (c :: rest) pat || containsTok pat rest

/-- The single-line comment marker `//`. -/
def lineCommentTok : List Char := ['/', '/']

/-- The block comment opening marker. -/
def blockOpenTok : List Char := ['/', '*']

/-- The block comment closing marker. -/
def blockCloseTok : List Char := ['*', '/']

/-- One iteration of the loop body of `count_sloc_in_file`: the state is
the pair `(in_block_comment, sloc)`. -/
def slocStep (st : Bool × Nat) (line : List Char) : Bool × Nat :=
  let stripped := pyStrip line
  if st.1 then
    if containsTok blockCloseTok stripped then (false, st.2) else st
  else if stripped.isEmpty || startsWithStr stripped lineCommentTok then st
  else if startsWithStr stripped blockOpenTok then (true, st.2)
  else (st.1, st.2 + 1)

/-- `count_sloc_in_file`: fold the loop body over the lines of the file,
starting from `in_block_comment = False`, `sloc = 0`. -/
def count_sloc_in_file (lines : List (List Char)) : Nat :=
  (lines.foldl slocStep (false, 0)).2

/-- The eight-line example file from the spec's concrete scenario. -/
def exampleFileC1 : List (List Char) :=
  [ "// header comment".toList
  , "using System;".toList
  , "".toList
  , "/* block".toList
  , "   comment */".toList
  , "class A \x7b".toList
  , "    int x = 1;".toList
  , "\x7d".toList ]

/-- Modelled on the spec's state-machine description (§4.1), as a second,
independent count: the number of lines that are neither blank, nor
single-line comments, nor inside or delimiting a block comment. The
`Bool` argument is the block-comment state. -/
def specCountLines : Bool → List (List Char) → Nat
  | _, [] => 0
  | true, l :: rest =>
      if containsTok blockCloseTok (pyStrip l) then specCountLines false rest
      else specCountLines true rest
  | false, l :: rest =>
      if startsWithStr (pyStrip l) blockOpenTok then specCountLines true rest
      else if (pyStrip l).isEmpty || startsWithStr (pyStrip l) lineCommentTok then
        specCountLines false rest
      else 1 + specCountLines false rest

/-- Python's `"{:<w}".format(s)`: left-justify `s` by padding with spaces up
to width `w` (a longer string is left untouched). -/
def ljust (s : String) (w : Nat) : String :=
  s ++ String.mk (List.replicate (w - s.length) ' ')

/-- Python's `"{:>w}".format(s)`: right-justify `s` by padding with spaces
up to width `w`. -/
def rjust (s : String) (w : Nat) : String :=
  String.mk (List.replicate (w - s.length) ' ') ++ s

/-- One formatted table row: `"{:<60} {:>10}".format(left, right)`. -/
def fmtRow (left right : String) : String :=
  ljust left 60 ++ " " ++ rjust right 10

/-- The table header row `format("Filename", "SLOC")`. -/
def tableHeader : String := fmtRow "Filename" "SLOC"

/-- The separator line `"=" * len(header)`. -/
def sepLine : String := String.mk (List.replicate tableHeader.length '=')

/-- `print_sloc_table`: the sequence of lines printed, in order. The total
is accumulated with `total_sloc += sloc` while the data rows are printed. -/
def print_sloc_table (pairs : List (String × Nat)) : List String :=
  tableHeader :: sepLine ::
    (pairs.map (fun p => fmtRow p.1 (toString p.2)) ++
      [sepLine, fmtRow "Total" (toString (pairs.foldl (fun acc p => acc + p.2) 0))])

/-- Insert a pair into a list sorted by count descending, in front of the
first entry whose count is at most its own: the position a stable
descending sort gives it. -/
def insertDesc (a : String × Nat) : List (String × Nat) → List (String × Nat)
  | [] => [a]
  | b :: rest => if b.2 ≤ a.2 then a :: b :: rest else b :: insertDesc a rest

/-- The entry point's `file_sloc_pairs.sort(key=lambda x: x[1], reverse=True)`:
a stable sort by count descending. -/
def sortPairs : List (String × Nat) → List (String × Nat)
  | [] => []
  | a :: rest => insertDesc a (sortPairs rest)

/-- A directory tree: files (name and decode result) and named
subdirectories, each list in enumeration order. A file's contents are
`none` when reading it under UTF-8 raises `UnicodeDecodeError`. -/
inductive Dir where
  | node (files : List (String × Option (List (List Char))))
      (subdirs : List (String × Dir))

/-- `os.path.join(root, name)`. -/
def joinPath (root name : String) : String := root ++ "/" ++ name

/-- Python's `s.endswith(pat)` on strings: the reversed characters of `s`
start with the reversed characters of `pat`. -/
def endsWithS (s pat : String) : Bool :=
  startsWithStr s.data.reverse pat.data.reverse

mutual

/-- `os.walk` from a root path: the `(dirpath, files)` entries in top-down
order, each directory listed before its subdirectories. -/
def walkDir (p : String) :
    Dir → List (String × List (String × Option (List (List Char))))
  | .node files subdirs => (p, files) :: walkSubdirs p subdirs

/-- The recursion of `os.walk` into the subdirectories, in order. -/
def walkSubdirs (p : String) :
    List (String × Dir) → List (String × List (String × Option (List (List Char))))
  | [] => []
  | (name, d) :: rest => walkDir (joinPath p name) d ++ walkSubdirs p rest

end

/-- The inner loop of `count_sloc_in_directory` over the files of one walk
entry: a `(path, count)` pair for every name ending in `.cs`, and `none`
as soon as a matched file fails to decode. -/
def scanFiles (root : String) :
    List (String × Option (List (List Char))) → Option (List (String × Nat))
  | [] => some []
  | (name, data) :: rest =>
    if endsWithS name ".cs" then
      match data with
      | none => none
      | some lines =>
        (scanFiles root rest).map
          (fun l => (joinPath root name, count_sloc_in_file lines) :: l)
    else scanFiles root rest

/-- The outer loop of `count_sloc_in_directory` over the walk entries. -/
def scanWalk :
    List (String × List (String × Option (List (List Char)))) →
      Option (List (String × Nat))
  | [] => some []
  | (root, files) :: rest => do
    let a ← scanFiles root files
    let b ← scanWalk rest
    pure (a ++ b)

/-- `count_sloc_in_directory`: walk the tree and collect `(path, count)`
pairs for the `.cs` files; `none` models the scan aborting on a decode
error. -/
def count_sloc_in_directory (p : String) (d : Dir) : Option (List (String × Nat)) :=
  scanWalk (walkDir p d)

/-- Every file under the root (recursively), as a triple of its directory
path, its name and its decode result, in traversal order. -/
def allFiles (p : String) (d : Dir) :
    List (String × String × Option (List (List Char))) :=
  (walkDir p d).flatMap (fun e => e.2.map (fun f => (e.1, f.1, f.2)))

/-- The decoded lines of a file (empty for an undecodable file). -/
def linesOf : Option (List (List Char)) → List (List Char)
  | some ls => ls
  | none => []

/-- The entry point: scan, sort by count descending, render. `none` models
the process aborting with an uncaught error before printing anything. -/
def main_run (p : String) (d : Dir) : Option (List String) :=
  (count_sloc_in_directory p d).map (fun pairs => print_sloc_table (sortPairs pairs))

/-- A concrete two-level directory in which every file decodes: two `.cs`
files and one non-matching file. -/
def exampleDirOk : Dir :=
  .node [("A.cs", some ["int a;".toList]), ("notes.txt", some ["hello".toList])]
    [("sub", .node [("B.cs", some ["// b".toList, "int b;".toList])] [])]

/-- A concrete directory in which a matched `.cs` file fails to decode
while another `.cs` file decodes fine. -/
def exampleDirBad : Dir :=
  .node [("A.cs", some ["int a;".toList])]
    [("sub", .node [("bad.cs", none)] [])]


/-- A trimmed line that starts with `/*` has the shape `'/' :: '*' :: t`. -/
theorem startsWithStr_open_shape (s : List Char)
    (h : startsWithStr s blockOpenTok = true) : ∃ t, s = '/' :: '*' :: t := by
  match s with
  | [] => simp [startsWithStr, blockOpenTok] at h
  | [c] => simp [startsWithStr, blockOpenTok] at h
  | c :: d :: t =>
    simp [startsWithStr, blockOpenTok] at h
    exact ⟨t, by simp [h.1, h.2]⟩

/-- In the `Normal` state, a line whose trimmed text starts with `/*` flips
the classifier into the block-comment state and is not counted; the close
token is not looked for on that same line. -/
theorem slocStep_open (c : Nat) (line : List Char)
    (h : startsWithStr (pyStrip line) blockOpenTok = true) :
    slocStep (false, c) line = (true, c) := by
  obtain ⟨t, ht⟩ := startsWithStr_open_shape _ h
  simp only [slocStep, ht] at h ⊢
  simp [startsWithStr, lineCommentTok, h]

/-- In the block-comment state, a line without the close token is skipped. -/
theorem slocStep_inBlock_noClose (c : Nat) (line : List Char)
    (h : containsTok blockCloseTok (pyStrip line) = false) :
    slocStep (true, c) line = (true, c) := by
  simp [slocStep, h]

/-- In the block-comment state, a line containing the close token returns
the classifier to `Normal` without being counted. -/
theorem slocStep_inBlock_close (c : Nat) (line : List Char)
    (h : containsTok blockCloseTok (pyStrip line) = true) :
    slocStep (true, c) line = (false, c) := by
  simp [slocStep, h]

/-- In the `Normal` state, a blank line or a `//` line is skipped. -/
theorem slocStep_blankOrComment (c : Nat) (line : List Char)
    (h : pyStrip line = [] ∨ startsWithStr (pyStrip line) lineCommentTok = true) :
    slocStep (false, c) line = (false, c) := by
  rcases h with h | h <;> simp [slocStep, h]

/-- Folding the loop body over lines that are all blank or `//` comments
leaves the state unchanged. -/
theorem foldl_slocStep_blankOrComment (lines : List (List Char)) (c : Nat)
    (h : ∀ l ∈ lines, pyStrip l = [] ∨ startsWithStr (pyStrip l) lineCommentTok = true) :
    List.foldl slocStep (false, c) lines = (false, c) := by
  induction lines with
  | nil => rfl
  | cons l rest ih =>
    rw [List.foldl_cons, slocStep_blankOrComment c l (h l (List.mem_cons_self l rest))]
    exact ih fun x hx => h x (List.mem_cons_of_mem l hx)

/-- Folding the loop body over close-token-free lines while in the
block-comment state skips them all. -/
theorem foldl_slocStep_inBlock (lines : List (List Char)) (c : Nat)
    (h : ∀ l ∈ lines, containsTok blockCloseTok (pyStrip l) = false) :
    List.foldl slocStep (true, c) lines = (true, c) := by
  induction lines with
  | nil => rfl
  | cons l rest ih =>
    rw [List.foldl_cons, slocStep_inBlock_noClose c l (h l (List.mem_cons_self l rest))]
    exact ih fun x hx => h x (List.mem_cons_of_mem l hx)

/-- The loop of `count_sloc_in_file` adds `specCountLines b lines` to the
running count, whatever the starting state. -/
theorem foldl_slocStep_eq_specCountLines (lines : List (List Char)) :
    ∀ (b : Bool) (c : Nat),
      (List.foldl slocStep (b, c) lines).2 = c + specCountLines b lines := by
  induction lines with
  | nil => intro b c; simp [specCountLines]
  | cons l rest ih =>
    intro b c
    cases b with
    | true =>
      by_cases hcl : containsTok blockCloseTok (pyStrip l) = true
      · rw [List.foldl_cons, slocStep_inBlock_close c l hcl, ih, specCountLines, if_pos hcl]
      · rw [List.foldl_cons,
          slocStep_inBlock_noClose c l (Bool.eq_false_iff.mpr hcl), ih,
          specCountLines, if_neg hcl]
    | false =>
      by_cases hop : startsWithStr (pyStrip l) blockOpenTok = true
      · rw [List.foldl_cons, slocStep_open c l hop, ih, specCountLines, if_pos hop]
      · by_cases hbl : ((pyStrip l).isEmpty || startsWithStr (pyStrip l) lineCommentTok) = true
        · have hbl' : pyStrip l = [] ∨ startsWithStr (pyStrip l) lineCommentTok = true := by
            have h2 := hbl
            simp only [Bool.or_eq_true, List.isEmpty_iff] at h2
            exact h2
          rw [List.foldl_cons, slocStep_blankOrComment c l hbl', ih,
            specCountLines, if_neg hop, if_pos hbl]
        · have hbl2 : ((pyStrip l).isEmpty || startsWithStr (pyStrip l) lineCommentTok) = false :=
            Bool.eq_false_iff.mpr hbl
          have hop2 : startsWithStr (pyStrip l) blockOpenTok = false :=
            Bool.eq_false_iff.mpr hop
          have hstep : slocStep (false, c) l = (false, c + 1) := by
            simp [slocStep, hbl2, hop2]
          rw [List.foldl_cons, hstep, ih, specCountLines, if_neg hop, if_neg hbl]
          omega

theorem mem_insertDesc (a x : String × Nat) (s : List (String × Nat)) :
    x ∈ insertDesc a s ↔ x = a ∨ x ∈ s := by
  induction s with
  | nil => simp [insertDesc]
  | cons b rest ih =>
    simp only [insertDesc]
    split_ifs with h
    · simp [List.mem_cons]
    · simp only [List.mem_cons, ih]
      tauto

theorem perm_insertDesc (a : String × Nat) (s : List (String × Nat)) :
    (insertDesc a s).Perm (a :: s) := by
  induction s with
  | nil => rfl
  | cons b rest ih =>
    simp only [insertDesc]
    split_ifs with h
    · rfl
    · exact (ih.cons b).trans (List.Perm.swap a b rest)

theorem perm_sortPairs (l : List (String × Nat)) : (sortPairs l).Perm l := by
  induction l with
  | nil => rfl
  | cons a rest ih =>
    simp only [sortPairs]
    exact (perm_insertDesc a (sortPairs rest)).trans (ih.cons a)

theorem pairwise_insertDesc (a : String × Nat) (s : List (String × Nat))
    (hs : s.Pairwise (fun p q => q.2 ≤ p.2)) :
    (insertDesc a s).Pairwise (fun p q => q.2 ≤ p.2) := by
  induction s with
  | nil => simp [insertDesc]
  | cons b rest ih =>
    rcases List.pairwise_cons.mp hs with ⟨hb, hrest⟩
    simp only [insertDesc]
    split_ifs with h
    · refine List.pairwise_cons.mpr ⟨?_, hs⟩
      intro x hx
      rcases List.mem_cons.mp hx with rfl | hx
      · exact h
      · exact le_trans (hb x hx) h
    · refine List.pairwise_cons.mpr ⟨?_, ih hrest⟩
      intro x hx
      rcases (mem_insertDesc a x rest).mp hx with rfl | hx
      · exact le_of_not_le h
      · exact hb x hx

theorem pairwise_sortPairs (l : List (String × Nat)) :
    (sortPairs l).Pairwise (fun p q => q.2 ≤ p.2) := by
  induction l with
  | nil => exact List.Pairwise.nil
  | cons a rest ih =>
    simp only [sortPairs]
    exact pairwise_insertDesc a (sortPairs rest) ih

theorem filter_insertDesc_of_eq (a : String × Nat) (c : Nat)
    (s : List (String × Nat)) (ha : a.2 = c) :
    (insertDesc a s).filter (fun p => p.2 == c) =
      a :: s.filter (fun p => p.2 == c) := by
  induction s with
  | nil => simp [insertDesc, List.filter_cons, ha]
  | cons b rest ih =>
    simp only [insertDesc]
    split_ifs with h
    · simp [List.filter_cons, ha]
    · have hb : ¬ (b.2 = c) := by omega
      simp [List.filter_cons, hb, ih]

theorem filter_insertDesc_of_ne (a : String × Nat) (c : Nat)
    (s : List (String × Nat)) (ha : ¬ (a.2 = c)) :
    (insertDesc a s).filter (fun p => p.2 == c) =
      s.filter (fun p => p.2 == c) := by
  induction s with
  | nil => simp [insertDesc, List.filter_cons, ha]
  | cons b rest ih =>
    simp only [insertDesc]
    split_ifs with h
    · simp [List.filter_cons, ha]
    · simp [List.filter_cons, ih]

theorem filter_sortPairs (l : List (String × Nat)) (c : Nat) :
    (sortPairs l).filter (fun p => p.2 == c) = l.filter (fun p => p.2 == c) := by
  induction l with
  | nil => rfl
  | cons a rest ih =>
    simp only [sortPairs]
    by_cases ha : a.2 = c
    · rw [filter_insertDesc_of_eq a c (sortPairs rest) ha, ih]
      simp [List.filter_cons, ha]
    · rw [filter_insertDesc_of_ne a c (sortPairs rest) ha, ih]
      simp [List.filter_cons, ha]

theorem foldl_add_snd (pairs : List (String × Nat)) :
    pairs.foldl (fun acc p => acc + p.2) 0 = (pairs.map Prod.snd).sum := by
  rw [List.sum_eq_foldl, List.foldl_map]

/-- When every matched file of a walk entry decodes, the inner loop yields
exactly the filtered, classified pairs of that entry. -/
theorem scanFiles_of_decodable (root : String)
    (files : List (String × Option (List (List Char))))
    (h : ∀ f ∈ files, endsWithS f.1 ".cs" = true → f.2 ≠ none) :
    scanFiles root files =
      some ((files.filter (fun f => endsWithS f.1 ".cs")).map
        (fun f => (joinPath root f.1, count_sloc_in_file (linesOf f.2)))) := by
  induction files with
  | nil => rfl
  | cons f rest ih =>
    have hrest := fun x hx => h x (List.mem_cons_of_mem f hx)
    obtain ⟨name, data⟩ := f
    by_cases hcs : endsWithS name ".cs" = true
    · match data with
      | none => exact absurd rfl (h (name, none) (List.mem_cons_self _ _) hcs)
      | some lines =>
        simp [scanFiles, hcs, ih hrest, List.filter_cons, linesOf]
    · simp [scanFiles, hcs, ih hrest, List.filter_cons]

/-- When every matched file of every walk entry decodes, the scan yields
exactly the filtered, classified pairs of all entries, in order. -/
theorem scanWalk_of_decodable
    (entries : List (String × List (String × Option (List (List Char)))))
    (h : ∀ e ∈ entries, ∀ f ∈ e.2, endsWithS f.1 ".cs" = true → f.2 ≠ none) :
    scanWalk entries =
      some (entries.flatMap (fun e =>
        (e.2.filter (fun f => endsWithS f.1 ".cs")).map
          (fun f => (joinPath e.1 f.1, count_sloc_in_file (linesOf f.2))))) := by
  induction entries with
  | nil => rfl
  | cons e rest ih =>
    obtain ⟨root, files⟩ := e
    have hhead := h (root, files) (List.mem_cons_self _ _)
    have htail := fun x hx => h x (List.mem_cons_of_mem _ hx)
    rw [scanWalk, scanFiles_of_decodable root files hhead, ih htail]
    simp [List.flatMap_cons]

/-- Collecting, filtering and classifying through `allFiles` is the same as
doing it entry by entry. -/
theorem flatMap_filter_classify
    (entries : List (String × List (String × Option (List (List Char))))) :
    ((entries.flatMap (fun e => e.2.map (fun f => (e.1, f.1, f.2)))).filter
        (fun f => endsWithS f.2.1 ".cs")).map
      (fun f => (joinPath f.1 f.2.1, count_sloc_in_file (linesOf f.2.2))) =
    entries.flatMap (fun e =>
      (e.2.filter (fun f => endsWithS f.1 ".cs")).map
        (fun f => (joinPath e.1 f.1, count_sloc_in_file (linesOf f.2)))) := by
  induction entries with
  | nil => rfl
  | cons e rest ih =>
    simp only [List.flatMap_cons, List.filter_append, List.map_append, ih]
    congr 1
    simp [List.filter_map, List.map_map, Function.comp_def]

/-- A walk entry containing a matched undecodable file makes the inner loop
fail. -/
theorem scanFiles_of_error (root : String)
    (files : List (String × Option (List (List Char))))
    (h : ∃ f ∈ files, endsWithS f.1 ".cs" = true ∧ f.2 = none) :
    scanFiles root files = none := by
  induction files with
  | nil => obtain ⟨f, hf, _⟩ := h; exact absurd hf (List.not_mem_nil f)
  | cons f rest ih =>
    obtain ⟨g, hg, hgcs, hgnone⟩ := h
    obtain ⟨name, data⟩ := f
    rcases List.mem_cons.mp hg with rfl | hg
    · simp only at hgcs hgnone
      subst hgnone
      simp [scanFiles, hgcs]
    · have hrest : scanFiles root rest = none := ih ⟨g, hg, hgcs, hgnone⟩
      by_cases hcs : endsWithS name ".cs" = true
      · match data with
        | none => simp [scanFiles, hcs]
        | some lines => simp [scanFiles, hcs, hrest]
      · simp [scanFiles, hcs, hrest]

/-- A failing walk entry makes the whole scan fail, with no partial list. -/
theorem scanWalk_of_error
    (entries : List (String × List (String × Option (List (List Char)))))
    (h : ∃ e ∈ entries, scanFiles e.1 e.2 = none) :
    scanWalk entries = none := by
  induction entries with
  | nil => obtain ⟨e, he, _⟩ := h; exact absurd he (List.not_mem_nil e)
  | cons e rest ih =>
    obtain ⟨g, hg, hgnone⟩ := h
    obtain ⟨root, files⟩ := e
    rcases List.mem_cons.mp hg with rfl | hg
    · rw [scanWalk, hgnone]
      rfl
    · rw [scanWalk]
      cases hsf : scanFiles root files with
      | none => rfl
      | some a => rw [ih ⟨g, hg, hgnone⟩]; rfl

end GxPT

/-- C6: when every matched file decodes, `count_sloc_in_directory` returns
one `(path, count)` pair for exactly the files under the root (recursively)
whose name ends in `.cs`, in traversal order, the count being the
classifier's result on that file's contents; other files contribute no
pair. -/
theorem C6_scan_lists_exactly_cs_files (p : String) (d : GxPT.Dir)
    (h : ∀ f ∈ GxPT.allFiles p d, GxPT.endsWithS f.2.1 ".cs" = true → f.2.2 ≠ none) :
    GxPT.count_sloc_in_directory p d =
      some (((GxPT.allFiles p d).filter (fun f => GxPT.endsWithS f.2.1 ".cs")).map
        (fun f => (GxPT.joinPath f.1 f.2.1,
          GxPT.count_sloc_in_file (GxPT.linesOf f.2.2)))) := by
  have hdec : ∀ e ∈ GxPT.walkDir p d, ∀ f ∈ e.2,
      GxPT.endsWithS f.1 ".cs" = true → f.2 ≠ none := by
    intro e he f hf hcs
    refine h (e.1, f.1, f.2) ?_ hcs
    simp only [GxPT.allFiles]
    exact List.mem_flatMap.mpr ⟨e, he, List.mem_map.mpr ⟨f, hf, rfl⟩⟩
  rw [GxPT.count_sloc_in_directory, GxPT.scanWalk_of_decodable _ hdec,
    GxPT.allFiles, GxPT.flatMap_filter_classify]

/-- Witness for C6 on the concrete tree `exampleDirOk`. -/
theorem C6_scan_lists_exactly_cs_files_witness :
    GxPT.count_sloc_in_directory "root" GxPT.exampleDirOk =
      some (((GxPT.allFiles "root" GxPT.exampleDirOk).filter
          (fun f => GxPT.endsWithS f.2.1 ".cs")).map
        (fun f => (GxPT.joinPath f.1 f.2.1,
          GxPT.count_sloc_in_file (GxPT.linesOf f.2.2)))) :=
  C6_scan_lists_exactly_cs_files "root" GxPT.exampleDirOk (by
    simp [GxPT.allFiles, GxPT.exampleDirOk, GxPT.walkDir, GxPT.walkSubdirs])

/-- C7: if any matched file under the root fails to decode, the whole scan
fails with no partial result, and the entry point prints no table at all,
whatever the other files. -/
theorem C7_decode_error_aborts_scan (p : String) (d : GxPT.Dir)
    (h : ∃ f ∈ GxPT.allFiles p d, GxPT.endsWithS f.2.1 ".cs" = true ∧ f.2.2 = none) :
    GxPT.count_sloc_in_directory p d = none ∧ GxPT.main_run p d = none := by
  obtain ⟨f, hf, hcs, hnone⟩ := h
  simp only [GxPT.allFiles] at hf
  obtain ⟨e, he, hfe⟩ := List.mem_flatMap.mp hf
  obtain ⟨g, hg, hge⟩ := List.mem_map.mp hfe
  subst hge
  have hscan : GxPT.count_sloc_in_directory p d = none := by
    rw [GxPT.count_sloc_in_directory]
    exact GxPT.scanWalk_of_error _
      ⟨e, he, GxPT.scanFiles_of_error e.1 e.2 ⟨g, hg, hcs, hnone⟩⟩
  exact ⟨hscan, by rw [GxPT.main_run, hscan]; rfl⟩

/-- Witness for C7 on the concrete tree `exampleDirBad`, whose subdirectory
holds an undecodable `.cs` file while `A.cs` decodes fine. -/
theorem C7_decode_error_aborts_scan_witness :
    GxPT.count_sloc_in_directory "root" GxPT.exampleDirBad = none ∧
    GxPT.main_run "root" GxPT.exampleDirBad = none :=
  C7_decode_error_aborts_scan "root" GxPT.exampleDirBad
    ⟨("root/sub", "bad.cs", none),
      by simp [GxPT.allFiles, GxPT.exampleDirBad, GxPT.walkDir, GxPT.walkSubdirs,
        GxPT.joinPath],
      by decide, rfl⟩

/-- C1: on the concrete file whose lines are `// header comment`,
`using System;`, an empty line, `/* block`, `   comment */`, `class A {`,
`    int x = 1;`, `}`, the classifier returns exactly 4. -/
theorem C1_example_file_sloc_is_four :
    GxPT.count_sloc_in_file GxPT.exampleFileC1 = 4 := by
  decide

/-- C2: for every file, `count_sloc_in_file` returns exactly the number of
lines that are neither blank, nor single-line comments, nor inside or
delimiting a block comment, as counted by the spec's own state machine
(`specCountLines`), whatever way those line kinds are interleaved. -/
theorem C2_sloc_counts_exactly_code_lines (lines : List (List Char)) :
    GxPT.count_sloc_in_file lines = GxPT.specCountLines false lines := by
  have h := GxPT.foldl_slocStep_eq_specCountLines lines false 0
  simpa [GxPT.count_sloc_in_file] using h

/-- C3: from the `Normal` state with running count `c`, a line whose trimmed
text starts with `/*`, followed by any lines without `*/` and then the first
line whose trimmed text contains `*/`, contributes 0 to the count (whatever
follows `*/` on the closing line) and leaves the classifier back in the
`Normal` state for the next line. -/
theorem C3_block_comment_adds_nothing (c : Nat) (opening closing : List Char)
    (mid : List (List Char))
    (hopen : GxPT.startsWithStr (GxPT.pyStrip opening) GxPT.blockOpenTok = true)
    (hmid : ∀ l ∈ mid, GxPT.containsTok GxPT.blockCloseTok (GxPT.pyStrip l) = false)
    (hclose : GxPT.containsTok GxPT.blockCloseTok (GxPT.pyStrip closing) = true) :
    List.foldl GxPT.slocStep (false, c) (opening :: (mid ++ [closing])) = (false, c) := by
  rw [List.foldl_cons, GxPT.slocStep_open c opening hopen, List.foldl_append,
    GxPT.foldl_slocStep_inBlock mid c hmid]
  simp [GxPT.slocStep_inBlock_close c closing hclose]

/-- Witness for C3 at a concrete three-line block comment whose closing line
carries code after the close token. -/
theorem C3_block_comment_adds_nothing_witness :
    List.foldl GxPT.slocStep (false, 0)
      ("  /* block".toList :: (["   comment".toList] ++ ["   end */ int y = 2;".toList])) =
      (false, 0) :=
  C3_block_comment_adds_nothing 0 "  /* block".toList "   end */ int y = 2;".toList
    ["   comment".toList] (by decide) (by decide) (by decide)

/-- C9: a file with zero lines has SLOC 0, and a file all of whose lines are
blank after trimming or start with `//` after trimming has SLOC 0. -/
theorem C9_blank_and_comment_files_count_zero (lines : List (List Char))
    (h : ∀ l ∈ lines,
        GxPT.pyStrip l = [] ∨
        GxPT.startsWithStr (GxPT.pyStrip l) GxPT.lineCommentTok = true) :
    GxPT.count_sloc_in_file [] = 0 ∧ GxPT.count_sloc_in_file lines = 0 := by
  refine ⟨rfl, ?_⟩
  rw [GxPT.count_sloc_in_file, GxPT.foldl_slocStep_blankOrComment lines 0 h]

/-- Witness for C9 at a concrete file of one blank, one whitespace-only and
two `//` comment lines. -/
theorem C9_blank_and_comment_files_count_zero_witness :
    GxPT.count_sloc_in_file [] = 0 ∧
    GxPT.count_sloc_in_file
      ["".toList, "   ".toList, "// a".toList, "  // b".toList] = 0 :=
  C9_blank_and_comment_files_count_zero
    ["".toList, "   ".toList, "// a".toList, "  // b".toList] (by decide)

/-- C10: in the `Normal` state, a line whose trimmed text starts with `/*`
puts the classifier into the block-comment state without checking that same
line for the close token; consequently the file `/* comment */` followed by
`int x = 1;` yields 0, the second line being consumed inside the
never-closed block comment. -/
theorem C10_open_line_never_checked_for_close :
    (∀ (line : List Char) (c : Nat),
        GxPT.startsWithStr (GxPT.pyStrip line) GxPT.blockOpenTok = true →
        GxPT.slocStep (false, c) line = (true, c)) ∧
    GxPT.count_sloc_in_file ["/* comment */".toList, "int x = 1;".toList] = 0 :=
  ⟨fun line c h => GxPT.slocStep_open c line h, by decide⟩

/-- Witness for C10: the one-line comment `/* comment */` itself — which
does contain the close token — still sends the classifier into the
block-comment state. -/
theorem C10_open_line_never_checked_for_close_witness :
    GxPT.slocStep (false, 0) ("/* comment */".toList) = (true, 0) :=
  C10_open_line_never_checked_for_close.1 ("/* comment */".toList) 0 (by decide)

/-- C4: the entry point's sort puts the scan result in descending order of
count (so the mapped counts, the data rows' counts, are non-increasing from
top to bottom), it is a permutation of the original pairs, and pairs of
equal count keep their original relative order (the subsequence at every
fixed count is unchanged). -/
theorem C4_sort_descending_and_stable (l : List (String × Nat)) :
    (GxPT.sortPairs l).Pairwise (fun p q => q.2 ≤ p.2) ∧
    (GxPT.sortPairs l).Perm l ∧
    (∀ c, (GxPT.sortPairs l).filter (fun p => p.2 == c) =
      l.filter (fun p => p.2 == c)) ∧
    ((GxPT.sortPairs l).map Prod.snd).Pairwise (fun m n => n ≤ m) :=
  ⟨GxPT.pairwise_sortPairs l, GxPT.perm_sortPairs l,
   fun c => GxPT.filter_sortPairs l c,
   List.pairwise_map.mpr (GxPT.pairwise_sortPairs l)⟩

/-- C5: the count printed in the final `Total` row is the exact sum of the
individual counts of the rendered pairs (the sum of the empty sequence
being 0). -/
theorem C5_total_row_is_exact_sum (pairs : List (String × Nat)) :
    (GxPT.print_sloc_table pairs).getLast? =
      some (GxPT.fmtRow "Total" (toString ((pairs.map Prod.snd).sum))) := by
  rw [GxPT.print_sloc_table, GxPT.foldl_add_snd]
  have hshape :
      GxPT.tableHeader :: GxPT.sepLine ::
        (pairs.map (fun p => GxPT.fmtRow p.1 (toString p.2)) ++
          [GxPT.sepLine, GxPT.fmtRow "Total" (toString ((pairs.map Prod.snd).sum))]) =
      (GxPT.tableHeader :: GxPT.sepLine ::
        (pairs.map (fun p => GxPT.fmtRow p.1 (toString p.2)) ++ [GxPT.sepLine])) ++
        [GxPT.fmtRow "Total" (toString ((pairs.map Prod.snd).sum))] := by
    simp
  rw [hshape, List.getLast?_concat]

/-- C8 (amended): the rendered table starts with the header and a separator
line of `=` characters of the header's length; each data row is the pair's
path left-justified and padded — never truncated — to the 60-character path
column, one space, and the count right-justified in the 10-character count
column; and the same separator line appears again right after the last data
row, before the total row. -/
theorem C8_table_layout (pairs : List (String × Nat)) :
    (GxPT.print_sloc_table pairs).take 2 = [GxPT.tableHeader, GxPT.sepLine] ∧
    GxPT.sepLine = String.mk (List.replicate GxPT.tableHeader.length '=') ∧
    ((GxPT.print_sloc_table pairs).drop 2).take pairs.length =
      pairs.map (fun p => GxPT.ljust p.1 60 ++ " " ++ GxPT.rjust (toString p.2) 10) ∧
    (GxPT.print_sloc_table pairs).drop (2 + pairs.length) =
      [GxPT.sepLine,
       GxPT.fmtRow "Total" (toString (pairs.foldl (fun acc p => acc + p.2) 0))] := by
  refine ⟨rfl, rfl, ?_, ?_⟩
  · rw [GxPT.print_sloc_table]
    simp only [List.drop_succ_cons, List.drop_zero]
    rw [← List.length_map pairs (fun p => GxPT.fmtRow p.1 (toString p.2)),
      List.take_left]
    simp [GxPT.fmtRow]
  · rw [GxPT.print_sloc_table]
    have h2 : (2 + pairs.length) = pairs.length + 2 := by omega
    rw [h2]
    simp only [List.drop_succ_cons]
    rw [← List.length_map pairs (fun p => GxPT.fmtRow p.1 (toString p.2)),
      List.drop_left]

set_option maxRecDepth 4096 in
/-- Counterexample to C8 as frozen: the path column is never truncated. On
a 70-character path the rendered data row keeps the whole path, one space
and the 10-character count field — 81 characters, wider than the header's
71 — so the path is not "padded/truncated to the fixed path-column width"
in the truncating sense. -/
theorem C8_long_path_not_truncated :
    ((GxPT.print_sloc_table [(String.mk (List.replicate 70 'p'), 5)]).drop 2).take 1 =
      [String.mk (List.replicate 70 'p') ++ " " ++ "         5"] ∧
    (String.mk (List.replicate 70 'p') ++ " " ++ "         5").length = 81 ∧
    GxPT.tableHeader.length = 71 := by
  decide
